import Mathlib

/-!
Verification of the irc-slack gateway core against its specification.

Go strings are modelled as lists of bytes (`GoStr`), one `Char` per byte;
all inputs considered in concrete examples are ASCII, for which this
correspondence with Go's byte strings is exact. Go's `len`, slicing,
`strings.Join`, `strings.Split`, `strings.Fields` and friends are embedded
as list functions with the Go semantics.
-/

/-- GoStr models a Go string as its byte sequence (one Char per byte). -/
abbrev GoStr := List Char

/-- gs converts an ASCII Lean string literal into its `GoStr` byte model. -/
def gs (s : String) : GoStr := s.data

/-- sjoin models Go `strings.Join(ws, " ")`: words joined by single spaces. -/
def sjoin : List GoStr → GoStr
  | [] => []
  | [w] => w
  | w :: ws => w ++ ' ' :: sjoin ws

/-- sumLen is the total byte length of a list of words. -/
def sumLen (ws : List GoStr) : Nat := (ws.map List.length).sum

/-- wwAux models the main loop of `WordWrap` (wordwrap.go lines 15-32).
`rest` is the remainder of `allWords`; `words` and `curLen` are the Go
variables of the same names; the returned list is the lines appended to
`lines` from this point on, including the final flush of `words`. -/
def wwAux (maxLen : Int) : List GoStr → List GoStr → Nat → List GoStr
  | [], words, _ => if words = [] then [] else [sjoin words]
  | w :: rest, words, curLen =>
      if (curLen : Int) + words.length + w.length > maxLen then
        sjoin words :: wwAux maxLen rest [w] w.length
      else
        wwAux maxLen rest (words ++ [w]) (curLen + w.length)

/-- goTruncStr models `line[:maxLen]` guarded by `len(line) > maxLen`
(wordwrap.go lines 33-38) in the case where it does not panic. -/
def goTruncStr (maxLen : Int) (line : GoStr) : GoStr :=
  if (line.length : Int) > maxLen then line.take maxLen.toNat else line

/-- goTruncLine models one iteration of the truncation pass of `WordWrap`:
Go slicing `line[:maxLen]` panics when `maxLen` is negative, modelled as
`none`. -/
def goTruncLine (maxLen : Int) (line : GoStr) : Option GoStr :=
  if (line.length : Int) > maxLen then
    if maxLen < 0 then none else some (line.take maxLen.toNat)
  else some line

/-- truncLines models the truncation pass of `WordWrap` over all lines;
`none` propagates a Go slice-bounds panic. -/
def truncLines (maxLen : Int) : List GoStr → Option (List GoStr)
  | [] => some []
  | l :: ls =>
      match goTruncLine maxLen l, truncLines maxLen ls with
      | some a, some b => some (a :: b)
      | _, _ => none

/-- WordWrap models `WordWrap(allWords, maxLen)` from wordwrap.go: the
accumulation loop followed by the truncation pass. The result is `none`
exactly when the truncation pass panics on a negative slice bound. -/
def WordWrap (allWords : List GoStr) (maxLen : Int) : Option (List GoStr) :=
  truncLines maxLen (wwAux maxLen allWords [] 0)

/-- goHasPfx models Go `strings.HasPrefix(s, pat)`. -/
def goHasPfx (s pat : GoStr) : Bool := pat.isPrefixOf s

/-- goHasSfx models Go `strings.HasSuffix(s, pat)`. -/
def goHasSfx (s pat : GoStr) : Bool := pat.isSuffixOf s

/-- splitFirst returns the pieces of `s` around the first occurrence of `sep`,
or `none` when `sep` does not occur. -/
def splitFirst (sep : Char) : GoStr → Option (GoStr × GoStr)
  | [] => none
  | c :: cs =>
      if c = sep then some ([], cs)
      else (splitFirst sep cs).map (fun p => (c :: p.1, p.2))

/-- goSplitN models Go `strings.SplitN(s, string(sep), n)` for `n ≥ 0`:
with `n = 0` the result is nil; with `n = 1` it is the whole string,
unsplit, as the only element; otherwise the string is split at most
`n - 1` times. -/
def goSplitN (sep : Char) (s : GoStr) : Nat → List GoStr
  | 0 => []
  | 1 => [s]
  | n + 2 =>
      match splitFirst sep s with
      | none => [s]
      | some (a, b) => a :: goSplitN sep b (n + 1)

/-- goIsSpace models `unicode.IsSpace` on the ASCII range (the only bytes
appearing in the inputs considered here). -/
def goIsSpace (c : Char) : Bool :=
  c = ' ' || c = '\t' || c = '\n' || c = Char.ofNat 11 || c = Char.ofNat 12 || c = '\r'

/-- goFields models Go `strings.Fields`: maximal runs of non-whitespace. -/
def goFields (s : GoStr) : List GoStr :=
  (s.splitOnP goIsSpace).filter (fun w => w ≠ [])

/-- goTrimSpace models Go `strings.TrimSpace`. -/
def goTrimSpace (s : GoStr) : GoStr :=
  ((s.dropWhile goIsSpace).reverse.dropWhile goIsSpace).reverse

/-- goReplaceAllAux is the scanning loop of `strings.Replace(s, pat, rep, -1)`
with enough fuel to consume `s`; at each position a match of `pat` is replaced
by `rep` and the scan resumes after the match. -/
def goReplaceAllAux (pat rep : GoStr) : Nat → GoStr → GoStr
  | 0, s => s
  | _ + 1, [] => []
  | fuel + 1, c :: rest =>
      if pat ≠ [] ∧ goHasPfx (c :: rest) pat then
        rep ++ goReplaceAllAux pat rep fuel (rest.drop (pat.length - 1))
      else
        c :: goReplaceAllAux pat rep fuel rest

/-- goReplaceAll models Go `strings.Replace(s, pat, rep, -1)` for a non-empty
pattern `pat`. -/
def goReplaceAll (pat rep s : GoStr) : GoStr := goReplaceAllAux pat rep s.length s

/-- crlf is the IRC line terminator. -/
def crlf : GoStr := gs "\r\n"

/-- MaxSlackAPIAttempts is the retry bound from irc_server.go. -/
def MaxSlackAPIAttempts : Nat := 3

/-- BatchResp is one response of the Slack client to a fetch call. -/
inductive BatchResp (α : Type)
  | rateLimited
  | apiError
  | ok (val : α)

/-- RetryOutcome is how a fetch retry loop can exit. -/
inductive RetryOutcome (α : Type)
  | maxAttempts
  | failed
  | fetched (val : α)

/-- usersBatchRetry models the inner `for {}` retry loop of `Users.FetchByIDs`
(users.go lines 56-84) for one batch. `responses k` is the Slack client's
response to the k-th call of this run; `fuel` bounds the number of loop
iterations observed, and `none` means the loop was still running after `fuel`
iterations. Following the source, `attempt` is declared (and therefore reset
to 0) at the top of every iteration, before the bound check. -/
def usersBatchRetry (responses : Nat → BatchResp (List GoStr)) (k : Nat) :
    Nat → Option (RetryOutcome (List GoStr))
  | 0 => none
  | fuel + 1 =>
      let attempt := 0
      if attempt ≥ MaxSlackAPIAttempts then some .maxAttempts
      else
        match responses k with
        | .rateLimited => usersBatchRetry responses (k + 1) fuel
        | .apiError => some .failed
        | .ok v => some (.fetched v)

/-- channelsBatchRetry models the inner `for {}` retry loop of
`Channels.FetchByIDs` (channels.go lines 74-98) for one channel id, with the
same conventions as `usersBatchRetry`; the source declares `attempt := 0`
inside the loop body there as well. -/
def channelsBatchRetry (responses : Nat → BatchResp GoStr) (k : Nat) :
    Nat → Option (RetryOutcome GoStr)
  | 0 => none
  | fuel + 1 =>
      let attempt := 0
      if attempt ≥ MaxSlackAPIAttempts then some .maxAttempts
      else
        match responses k with
        | .rateLimited => channelsBatchRetry responses (k + 1) fuel
        | .apiError => some .failed
        | .ok v => some (.fetched v)

/-- HandleResult is the observable outcome of `Server.HandleMsg` on one raw
IRC line: rejection (too short / not CRLF-terminated), an unknown command, or
dispatch of prefix, command, arguments and trailing to the matching handler. -/
inductive HandleResult
  | emptyMessage
  | invalidData
  | unknownCommand (cmd : GoStr)
  | dispatch (pfx cmd : GoStr) (args : List GoStr) (trailing : GoStr)
deriving DecidableEq

/-- ircCommandNames lists the keys of the `IrcCommandHandlers` map. -/
def ircCommandNames : List GoStr :=
  [gs "CAP", gs "NICK", gs "USER", gs "PING", gs "PRIVMSG", gs "QUIT", gs "MODE",
   gs "PASS", gs "WHOIS", gs "WHO", gs "JOIN", gs "PART", gs "TOPIC", gs "NAMES"]

/-- findTrailing models the trailing-extraction loop of `Server.HandleMsg`:
at the first argument starting with `:`, the remaining arguments joined by
spaces (minus the leading `:`) become the trailing and are removed from the
argument list. -/
def findTrailing : List GoStr → List GoStr × GoStr
  | [] => ([], [])
  | a :: rest =>
      if goHasPfx a (gs ":") then ([], (sjoin (a :: rest)).drop 1)
      else
        let p := findTrailing rest
        (a :: p.1, p.2)

/-- HandleMsg models `Server.HandleMsg` (irc-server.go lines 171-229): the
length check, the `:`-led prefix extraction via `strings.SplitN(msg[1:], " ", 1)[0]`
and `data = msg[len(prefix)+1:]`, the CRLF check, tokenisation on single
spaces, trailing extraction, and lookup in the command handler map. -/
def HandleMsg (msg : GoStr) : HandleResult :=
  if msg.length < 1 then .emptyMessage
  else
    let pd : GoStr × GoStr :=
      if msg.head? = some ':' then
        let pfx := (goSplitN ' ' (msg.drop 1) 1).headD []
        (pfx, msg.drop (pfx.length + 1))
      else ([], msg)
    if goHasSfx pd.2 crlf = false then .invalidData
    else
      let data := pd.2.take (pd.2.length - 2)
      let tokens := data.splitOn ' '
      let cmd := tokens.headD []
      let at0 := findTrailing tokens.tail
      if cmd ∈ ircCommandNames then .dispatch pd.1 cmd at0.1 at0.2
      else .unknownCommand cmd

/-- Channel models the `Channel` wrapper around a Slack conversation
(irc_channel.go); only the fields the verified functions read are kept. -/
structure Channel where
  id : GoStr
  name : GoStr
  isChannel : Bool := false
  isGroup : Bool := false
  isPrivate : Bool := false
  isMpim : Bool := false
  isMember : Bool := false
deriving DecidableEq

/-- ChannelPrefixPublicChannel is the IRC prefix of public channels. -/
def ChannelPrefixPublicChannel : GoStr := gs "#"

/-- ChannelPrefixPrivateChannel is the IRC prefix of private channels. -/
def ChannelPrefixPrivateChannel : GoStr := gs "@"

/-- ChannelPrefixMpIM is the IRC prefix of multi-party IMs. -/
def ChannelPrefixMpIM : GoStr := gs "&"

/-- ChannelPrefixThread is the IRC prefix of thread pseudo-channels. -/
def ChannelPrefixThread : GoStr := gs "+"

/-- HasChannelPrefix models `HasChannelPrefix` from irc_channel.go. -/
def HasChannelPrefix (name : GoStr) : Bool :=
  match name with
  | [] => false
  | c :: _ =>
      [c] == ChannelPrefixPublicChannel || [c] == ChannelPrefixPrivateChannel ||
      [c] == ChannelPrefixMpIM || [c] == ChannelPrefixThread

/-- StripChannelPrefix models `StripChannelPrefix` from irc_channel.go. -/
def StripChannelPrefix (name : GoStr) : GoStr :=
  if HasChannelPrefix name then name.drop 1 else name

/-- Channel.IsPublicChannel models the predicate of the same name. -/
def Channel.IsPublicChannel (c : Channel) : Bool := c.isChannel && !c.isPrivate

/-- Channel.IsPrivateChannel models the predicate of the same name. -/
def Channel.IsPrivateChannel (c : Channel) : Bool := (c.isGroup || c.isChannel) && c.isPrivate

/-- Channel.IsMP models the predicate of the same name. -/
def Channel.IsMP (c : Channel) : Bool := c.isMpim

/-- goEllipsis is the three-byte UTF-8 encoding of the horizontal ellipsis
appended by `Channel.IRCName` on truncation. -/
def goEllipsis : GoStr := [Char.ofNat 0xE2, Char.ofNat 0x80, Char.ofNat 0xA6]

/-- Channel.SlackName models `Channel.SlackName`, the Slack `Name` field. -/
def Channel.SlackName (c : Channel) : GoStr := c.name

/-- Channel.IRCName models `Channel.IRCName` (irc_channel.go lines 117-135):
`#name` for public channels, `@name` for private ones, and for multi-party
IMs `&id|name` with `mpdm-` deleted, `--` collapsed to `-`, and byte
truncation to 29 bytes plus an ellipsis when at least 30 bytes long. -/
def Channel.IRCName (c : Channel) : GoStr :=
  if c.IsPublicChannel then ChannelPrefixPublicChannel ++ c.name
  else if c.IsPrivateChannel then ChannelPrefixPrivateChannel ++ c.name
  else if c.IsMP then
    let n0 := ChannelPrefixMpIM ++ c.id ++ gs "|" ++ c.name
    let n1 := goReplaceAll (gs "mpdm-") [] n0
    let n2 := goReplaceAll (gs "--") (gs "-") n1
    if n2.length ≥ 30 then n2.take 29 ++ goEllipsis else n2
  else gs "<unknow-channel-type>"

/-- ChannelsMap models the `Channels.channels` Go map as an association list
with unique keys: insertion overwrites an existing key in place and appends
new keys. -/
abbrev ChannelsMap := List (GoStr × Channel)

/-- mapLookup models a Go map read. -/
def mapLookup (m : ChannelsMap) (k : GoStr) : Option Channel :=
  (m.find? (fun e => e.1 == k)).map (fun e => e.2)

/-- mapInsert models a Go map write. -/
def mapInsert (m : ChannelsMap) (k : GoStr) (v : Channel) : ChannelsMap :=
  if (m.find? (fun e => e.1 == k)).isSome then
    m.map (fun e => if e.1 == k then (k, v) else e)
  else m ++ [(k, v)]

/-- ChannelsByName models `Channels.ByName` (channels.go lines 175-186):
strip one channel-type prefix byte if present, then look the remainder up as
a map key. -/
def ChannelsByName (m : ChannelsMap) (name : GoStr) : Option Channel :=
  mapLookup m (if HasChannelPrefix name then name.drop 1 else name)

/-- ChannelsFetch models `Channels.Fetch` (channels.go lines 109-154) with
all pages fetched successfully: the cache is replaced by a fresh map holding
every upstream channel under its Slack name (`channels[ch.SlackName()] = ch`). -/
def ChannelsFetch (upstream : List Channel) (_m : ChannelsMap) : ChannelsMap :=
  upstream.foldl (fun acc ch => mapInsert acc ch.SlackName ch) []

/-- ChannelsFetchByIDs models `Channels.FetchByIDs` (channels.go lines 52-105)
with every Slack call succeeding: ids already present as map keys are skipped
unless `skipCache`, and each fetched channel is stored under its id
(`c.channels[ch.ID] = ch`). -/
def ChannelsFetchByIDs (getInfo : GoStr → Channel) (skipCache : Bool)
    (ids : List GoStr) (m : ChannelsMap) : ChannelsMap :=
  let toRetrieve := if skipCache then ids else ids.filter (fun cid => (mapLookup m cid).isNone)
  toRetrieve.foldl (fun acc cid => mapInsert acc (getInfo cid).id (getInfo cid)) m

/-- PartEffect is one observable action of `IrcPartHandler`: an IRC numeric
sent to the client, a Slack `LeaveConversation` call, or the PART reply. -/
inductive PartEffect
  | numeric400
  | numeric441 (channame : GoStr)
  | leaveConversation (id : GoStr)
  | partReply (channame : GoStr)
deriving DecidableEq

/-- LeaveResp is the Slack client's answer to `LeaveConversation`. -/
inductive LeaveResp
  | fail
  | notInChannel
  | left
deriving DecidableEq

/-- IrcPartHandler models `IrcPartHandler` (irc_server.go lines 753-798) with
`Channels.Fetch` succeeding and leaving the cache equal to `fetched`, and
numeric sends succeeding. Following the source, the whole leave-and-reply
block sits inside `if chanID == ""`. -/
def IrcPartHandler (args : List GoStr) (fetched : ChannelsMap)
    (leave : GoStr → LeaveResp) : List PartEffect :=
  if args.length ≠ 1 then [.numeric400]
  else
    let channame := StripChannelPrefix (args.headD [])
    let chanID :=
      match fetched.find? (fun e => e.2.name == channame) with
      | some e => e.2.id
      | none => []
    if chanID = [] then
      .numeric441 channame ::
      .leaveConversation chanID ::
      (match leave chanID with
       | .fail => []
       | .notInChannel => [.numeric441 channame]
       | .left => [.partReply channame])
    else []

/-- SlackPostMessage models the batcher command struct of the same name. -/
structure SlackPostMessage where
  target : GoStr
  targetTs : GoStr
  text : GoStr
deriving DecidableEq

/-- SlackPost is one `PostMessage` call issued by the batcher: target, the
posted text, and the thread timestamp option if one was attached. -/
structure SlackPost where
  target : GoStr
  text : GoStr
  threadTs : Option GoStr
deriving DecidableEq

/-- BatchEvent is one wakeup of the batcher select loop. -/
inductive BatchEvent
  | cmd (m : SlackPostMessage)
  | timerFire

/-- bufAppend models `textBuffer[k] += v` on a Go map of strings. -/
def bufAppend (buf : List (GoStr × GoStr)) (k v : GoStr) : List (GoStr × GoStr) :=
  if (buf.find? (fun e => e.1 == k)).isSome then
    buf.map (fun e => if e.1 == k then (e.1, e.2 ++ v) else e)
  else buf ++ [(k, v)]

/-- batcherStep models one iteration of `IrcContext.Start`
(irc_context.go lines 86-111). The state is the text buffer together with
the `message` variable, which retains the last command received; on a timer
fire each buffered target is posted with the trimmed text, and
`message.TargetTs` — from the last command received overall — is attached
whenever it is non-empty. -/
def batcherStep (st : List (GoStr × GoStr) × SlackPostMessage) (ev : BatchEvent) :
    (List (GoStr × GoStr) × SlackPostMessage) × List SlackPost :=
  match ev with
  | .cmd m => ((bufAppend st.1 m.target (m.text ++ [Char.ofNat 10]), m), [])
  | .timerFire =>
      (([], st.2),
       st.1.map (fun e =>
         { target := e.1
           text := goTrimSpace e.2
           threadTs := if st.2.targetTs ≠ [] then some st.2.targetTs else none }))

/-- runBatcherAux folds the batcher loop over a list of events, starting
from the given state and accumulated post list. -/
def runBatcherAux (st : (List (GoStr × GoStr) × SlackPostMessage) × List SlackPost)
    (evs : List BatchEvent) : (List (GoStr × GoStr) × SlackPostMessage) × List SlackPost :=
  evs.foldl
    (fun acc ev =>
      let r := batcherStep acc.1 ev
      (r.1, acc.2 ++ r.2))
    st

/-- runBatcher runs the batcher loop from its initial state (empty buffer,
zero-valued `message`) over a list of events and returns every Slack post
issued, in order. -/
def runBatcher (evs : List BatchEvent) : List SlackPost :=
  (runBatcherAux ((([], ⟨[], [], []⟩), [])) evs).2

/-- hasKey tells whether a buffer holds an entry for the given target. -/
def hasKey (buf : List (GoStr × GoStr)) (k : GoStr) : Bool :=
  (buf.find? (fun e => e.1 == k)).isSome

/-- accumBuf is the text buffer resulting from processing a list of commands
(each appending `text + "\n"` to its target's entry) on top of `buf`. -/
def accumBuf (cs : List SlackPostMessage) (buf : List (GoStr × GoStr)) :
    List (GoStr × GoStr) :=
  cs.foldl (fun b m => bufAppend b m.target (m.text ++ [Char.ofNat 10])) buf

/-- windowTargets is the specification-side projection of a batch window: the
distinct targets of the commands, in first-arrival order. -/
def windowTargets : List SlackPostMessage → List GoStr
  | [] => []
  | m :: rest => m.target :: (windowTargets rest).filter (fun t => !(t == m.target))

/-- catNL is the buffer content the loop accumulates for one target: the texts
of that target's commands, each followed by a newline, concatenated. -/
def catNL (cs : List SlackPostMessage) (t : GoStr) : GoStr :=
  ((cs.filter (fun m => m.target == t)).map (fun m => m.text ++ [Char.ofNat 10])).flatten

/-- nlJoin is the specification-side newline join of a list of texts. -/
def nlJoin : List GoStr → GoStr
  | [] => []
  | [x] => x
  | x :: xs => x ++ Char.ofNat 10 :: nlJoin xs

/-- lastTs is the thread timestamp attached to every post of a window: the
`TargetTs` of the last command received overall, when non-empty. -/
def lastTs (cs : List SlackPostMessage) : Option GoStr :=
  match cs.getLast? with
  | some m => if m.targetTs ≠ [] then some m.targetTs else none
  | none => none

/-- SlackUser models the `slack.User` fields read by `printMessage`. -/
structure SlackUser where
  name : GoStr
  profileBotID : GoStr
deriving DecidableEq

/-- SlackMsg models the `slack.Msg` fields read by the self-message
suppression logic of `printMessage`. -/
structure SlackMsg where
  user : GoStr
  username : GoStr
  botID : GoStr
  clientMsgID : GoStr
deriving DecidableEq

/-- printMessageName models the sender-name resolution of `printMessage`
(event_handler.go lines 197-208), given the user-cache lookup result. -/
def printMessageName (user? : Option SlackUser) (m : SlackMsg) : GoStr :=
  match user? with
  | none => if m.user ≠ [] then m.user else goReplaceAll (gs " ") (gs "_") m.username
  | some u => u.name

/-- printMessageSkipsOwn models the self-message suppression decision of
`printMessage` (event_handler.go lines 242-253): the message is dropped
(true) or emitted as PRIVMSG (false). -/
def printMessageSkipsOwn (nick : GoStr) (usingLegacyToken : Bool)
    (user? : Option SlackUser) (m : SlackMsg) : Bool :=
  if printMessageName user? m == nick then
    (usingLegacyToken &&
      (match user? with
       | some u => m.botID != u.profileBotID
       | none => false)) ||
    (!usingLegacyToken && m.clientMsgID == [])
  else false

/-- PassErr enumerates the error cases of `passwordToTokenAndCookie`. -/
inductive PassErr
  | cookieWithoutXoxcToken
  | emptyCookie
  | badCookieFormat
  | wrongNumberOfParts
deriving DecidableEq

/-- PassResult models the `(token, cookie, error)` triple returned by
`passwordToTokenAndCookie`. -/
inductive PassResult
  | ok (token cookie : GoStr)
  | err (e : PassErr)
deriving DecidableEq

/-- passwordToTokenAndCookie models the function of the same name
(irc_server.go lines 405-426): split on `|`; one part is returned as a bare
token; two parts require an `xoxc-` token and a non-empty `d=...;` cookie;
any other count is an error. -/
def passwordToTokenAndCookie (p : GoStr) : PassResult :=
  match p.splitOn '|' with
  | [x] => .ok x []
  | [a, b] =>
      if ¬ (goHasPfx a (gs "xoxc-") = true) then .err .cookieWithoutXoxcToken
      else if b = [] then .err .emptyCookie
      else if ¬ (goHasPfx b (gs "d=") = true ∧ goHasSfx b (gs ";") = true) then
        .err .badCookieFormat
      else .ok a b
  | _ => .err .wrongNumberOfParts

/-- SplitReply models `SplitReply(preamble, msg, chunksize)`
(irc_server.go lines 71-90). The one-chunk branch applies when
`chunksize < 512` or the whole reply already fits; otherwise the message is
word-wrapped at `chunksize - len(preamble) - 2` and each line is framed.
`none` propagates a panic of the truncation pass of `WordWrap`. -/
def SplitReply (preamble msg : GoStr) (chunksize : Int) : Option (List GoStr) :=
  if chunksize < 512 ∨ (preamble.length : Int) + msg.length + 2 ≤ chunksize then
    some [preamble ++ msg ++ crlf]
  else
    let maxLen := chunksize - preamble.length - 2
    match WordWrap (goFields msg) maxLen with
    | none => none
    | some lines => some (lines.map (fun line => preamble ++ line ++ crlf))

/-- generalCh is a concrete public channel used in concrete runs. -/
def generalCh : Channel := { id := gs "C1", name := gs "general", isChannel := true }

/-- mpimCh is a concrete multi-party IM channel used in concrete runs. -/
def mpimCh : Channel := { id := gs "G123", name := gs "mpdm-alice--bob-1", isMpim := true }

-- Sanity checks against the repository's own tests (wordwrap_test.go).
example : WordWrap ((gs "The quick brown fox jumps over the lazy dog").splitOn ' ') 10 =
    some [gs "The quick", gs "brown fox", gs "jumps over", gs "the lazy", gs "dog"] := by decide

example : WordWrap [gs "The", gs "quick", gs "brown", gs "fox", gs "jumps", gs "over",
    gs "the", gs "lazy", gs "dog"] 3 =
    some [gs "The", gs "qui", gs "bro", gs "fox", gs "jum", gs "ove", gs "the", gs "laz", gs "dog"] := by
  decide

/-- C1: against the claim that each per-batch retry loop performs at most
`MaxSlackAPIAttempts` (=3) attempts and then returns an error, the loops of
`Users.FetchByIDs` and `Channels.FetchByIDs` never exit at all when the
Slack client keeps answering with rate-limit errors: `attempt` is redeclared
as 0 on every iteration, so the bound check never fires, for any number of
observed iterations. -/
theorem fetchByIDs_rateLimited_retry_never_exits :
    ∀ fuel k,
      usersBatchRetry (fun _ => .rateLimited) k fuel = none ∧
      channelsBatchRetry (fun _ => .rateLimited) k fuel = none := by
  intro fuel
  induction fuel with
  | zero => intro k; exact ⟨rfl, rfl⟩
  | succ n ih =>
      intro k
      refine ⟨?_, ?_⟩
      · simpa [usersBatchRetry, MaxSlackAPIAttempts] using (ih (k + 1)).1
      · simpa [channelsBatchRetry, MaxSlackAPIAttempts] using (ih (k + 1)).2

/-- C2: every line that begins with a `:` prefix is rejected by
`Server.HandleMsg` as not CRLF-terminated, because
`strings.SplitN(msg[1:], " ", 1)[0]` yields the whole remainder of the line
as the prefix, leaving an empty `data`; no prefixed line is ever dispatched. -/
theorem HandleMsg_rejects_prefixed_lines (msg : GoStr) (h : msg.head? = some ':') :
    HandleMsg msg = .invalidData := by
  obtain ⟨rest, rfl⟩ : ∃ rest, msg = ':' :: rest := by
    cases msg with
    | nil => simp at h
    | cons c cs =>
        simp only [List.head?_cons, Option.some.injEq] at h
        exact ⟨cs, by rw [h]⟩
  simp [HandleMsg, goSplitN, List.drop_length, goHasSfx, crlf, gs, List.isSuffixOf]

/-- C2 witness: a concrete prefixed PING line is rejected. -/
theorem HandleMsg_rejects_prefixed_lines_witness :
    HandleMsg (gs ":alice PING :hello\r\n") = .invalidData :=
  HandleMsg_rejects_prefixed_lines (gs ":alice PING :hello\r\n") (by decide)

/-- C3: evaluation of `IrcPartHandler` at the claim's inputs. With the
channel `general` present in the fetched list, a `PART #general` produces no
effect at all — no `LeaveConversation` call with the resolved id `C1` and no
PART reply — because the whole leave-and-reply block sits inside
`if chanID == ""`. With an unknown channel the handler sends the 441
numeric and then calls `LeaveConversation` with the empty id, emitting a
PART reply if that call happens to succeed. -/
theorem IrcPartHandler_known_channel_inert :
    IrcPartHandler [gs "#general"] [(gs "general", generalCh)] (fun _ => .left) = [] ∧
    IrcPartHandler [gs "#nonexistent"] [(gs "general", generalCh)] (fun _ => .left) =
      [.numeric441 (gs "nonexistent"), .leaveConversation [], .partReply (gs "nonexistent")] := by
  decide

/-- C7: evaluation of the Channels cache at the claim's scenario. After
`Fetch` caches channel id `C1` under its Slack name `general`, a
`FetchByIDs` for `C1` misses the name-keyed entry and inserts a second
entry keyed by the id, so the cache holds two entries for the one Slack id
instead of updating in place. -/
theorem Channels_cache_duplicate_id :
    ChannelsFetchByIDs (fun _ => generalCh) false [gs "C1"] (ChannelsFetch [generalCh] []) =
      [(gs "general", generalCh), (gs "C1", generalCh)] ∧
    ((ChannelsFetchByIDs (fun _ => generalCh) false [gs "C1"] (ChannelsFetch [generalCh] [])).filter
        (fun e => e.2.id == gs "C1")).length = 2 := by
  decide

/-- C4 counterexample: at words `["abcd"]` and max length 3 the first (and
only) word is longer than the limit, so `WordWrap` emits a leading empty
line; the output lines joined by spaces carry a leading space and differ
from the truncated input word, refuting the claimed concatenation equality. -/
theorem WordWrap_concat_counterexample :
    WordWrap [gs "abcd"] 3 = some [[], gs "abc"] ∧
    sjoin [([] : GoStr), gs "abc"] ≠ sjoin ([gs "abcd"].map (goTruncStr 3)) := by
  decide

/-- C5 counterexample: in a window holding one command for target `CA` with
empty thread_ts followed by one command for target `CB` with thread_ts `9`,
the post for `CA` carries thread timestamp `9` — taken from the last command
received overall — although the last (and only) command for `CA` carried
none, refuting the claimed per-target thread timestamp. -/
theorem batcher_threadTs_counterexample :
    runBatcher [.cmd ⟨gs "CA", [], gs "a1"⟩, .cmd ⟨gs "CB", gs "9", gs "b1"⟩, .timerFire] =
      [⟨gs "CA", gs "a1", some (gs "9")⟩, ⟨gs "CB", gs "b1", some (gs "9")⟩] ∧
    (runBatcher [.cmd ⟨gs "CA", [], gs "a1"⟩, .cmd ⟨gs "CB", gs "9", gs "b1"⟩, .timerFire]).find?
        (fun post => post.target == gs "CA") = some ⟨gs "CA", gs "a1", some (gs "9")⟩ := by
  decide

/-- C6 counterexample: with a legacy token, own nick `alice`, a cached user
record whose profile bot id is `B1`, and a message carrying bot id `B2`,
the bot ids differ and yet `printMessage` suppresses the message, refuting
the claim that a differing bot id is NOT suppressed. -/
theorem printMessage_legacy_counterexample :
    printMessageSkipsOwn (gs "alice") true (some ⟨gs "alice", gs "B1"⟩)
        ⟨gs "U1", [], gs "B2", gs "xyz"⟩ = true ∧
    (gs "B2" : GoStr) ≠ gs "B1" := by
  decide

/-- C9 counterexample: for the multi-party IM channel with id `G123` and
Slack name `mpdm-alice--bob-1`, the IRC name is `&G123|alice-bob-1`;
`ByName` strips the `&` and looks up `G123|alice-bob-1`, which matches
neither the Slack-name key used by `Fetch` nor the id key used by
`FetchByIDs`, so the round-trip returns nothing. -/
theorem ByName_IRCName_roundTrip_counterexample :
    mpimCh.IRCName = gs "&G123|alice-bob-1" ∧
    ChannelsByName [(mpimCh.SlackName, mpimCh)] mpimCh.IRCName = none ∧
    ChannelsByName [(mpimCh.id, mpimCh)] mpimCh.IRCName = none := by
  decide

set_option maxRecDepth 40000 in
/-- C10 counterexample: with a 513-byte preamble and chunk size 512 the
splitting branch computes the negative max length -3 and the truncation pass
of `WordWrap` performs a negative slice bound — a Go runtime panic, modelled
as `none` — so `SplitReply` does not return a list of chunks; and with a
whitespace-only message it returns an empty list. -/
theorem SplitReply_total_counterexample :
    SplitReply (List.replicate 513 'a') (gs "hi there") 512 = none ∧
    SplitReply (gs ":srv 353 n :") (List.replicate 600 ' ') 512 = some [] := by
  decide

/-- C8: characterization of `passwordToTokenAndCookie`. A one-segment input
is returned as a bare token with empty cookie; a two-segment input `a|b` is
accepted exactly when `a` starts with `xoxc-` and `b` is non-empty, starts
with `d=` and ends with `;`; three or more segments are rejected; and the
five literal examples of the specification evaluate as stated. -/
theorem passwordToTokenAndCookie_spec (p : GoStr) :
    ((p.splitOn '|').length = 1 → passwordToTokenAndCookie p = .ok p []) ∧
    (∀ a b, p.splitOn '|' = [a, b] →
      (passwordToTokenAndCookie p = .ok a b ↔
        goHasPfx a (gs "xoxc-") = true ∧ b ≠ [] ∧
          goHasPfx b (gs "d=") = true ∧ goHasSfx b (gs ";") = true)) ∧
    (3 ≤ (p.splitOn '|').length → ∃ e, passwordToTokenAndCookie p = .err e) ∧
    passwordToTokenAndCookie (gs "xoxc-ABC|d=DEF;") = .ok (gs "xoxc-ABC") (gs "d=DEF;") ∧
    passwordToTokenAndCookie (gs "xoxp-XYZ") = .ok (gs "xoxp-XYZ") [] ∧
    passwordToTokenAndCookie (gs "xoxc-ABC|") = .err .emptyCookie ∧
    passwordToTokenAndCookie (gs "xoxp-XYZ|d=DEF;") = .err .cookieWithoutXoxcToken ∧
    passwordToTokenAndCookie (gs "a|b|c") = .err .wrongNumberOfParts := by
  refine ⟨?_, ?_, ?_, by decide, by decide, by decide, by decide, by decide⟩
  · intro h1
    rcases hs : p.splitOn '|' with _ | ⟨x, _ | ⟨y, t⟩⟩
    · rw [hs] at h1; simp at h1
    · have hj : List.intercalate ['|'] (p.splitOn '|') = p :=
        List.intercalate_splitOn p '|'
      rw [hs] at hj
      have hx : x = p := by simpa [List.intercalate] using hj
      subst hx
      simp [passwordToTokenAndCookie, hs]
    · rw [hs] at h1; simp at h1
  · intro a b hs
    simp only [passwordToTokenAndCookie, hs]
    by_cases h1 : goHasPfx a (gs "xoxc-") = true
    · by_cases h2 : b = []
      · subst h2
        simp [h1]
      · by_cases h3 : goHasPfx b (gs "d=") = true ∧ goHasSfx b (gs ";") = true
        · rcases h3 with ⟨hp, hsx⟩
          simp [h1, h2, hp, hsx]
        · simp [h1, h2, h3]
    · simp [h1]
  · intro h3
    rcases hs : p.splitOn '|' with _ | ⟨a, _ | ⟨b, _ | ⟨c, t⟩⟩⟩
    · rw [hs] at h3; simp at h3
    · rw [hs] at h3; simp at h3
    · rw [hs] at h3; simp at h3
    · exact ⟨.wrongNumberOfParts, by simp [passwordToTokenAndCookie, hs]⟩

/-- C8 witness: the theorem applied at the one-segment input `xoxp-XYZ`. -/
theorem passwordToTokenAndCookie_spec_witness :
    passwordToTokenAndCookie (gs "xoxp-XYZ") = .ok (gs "xoxp-XYZ") [] :=
  (passwordToTokenAndCookie_spec (gs "xoxp-XYZ")).1 (by decide)

/-- C9 amended: the round-trip holds for the public and private channels
stored under their Slack name, as `Channels.Fetch` stores them: for such a
channel `C`, `ByName(C.IRCName())` strips the channel-type prefix and
returns `C`. (The counterexample shows the round-trip fails for multi-party
IM channels, whose IRC name embeds the id and is never a cache key.) -/
theorem ByName_IRCName_roundTrip (m : ChannelsMap) (c : Channel)
    (hc : c.IsPublicChannel = true ∨ c.IsPrivateChannel = true)
    (hm : mapLookup m c.SlackName = some c) :
    ChannelsByName m c.IRCName = some c := by
  have hname : c.IRCName = '#' :: c.name ∨ c.IRCName = '@' :: c.name := by
    rcases hc with h | h
    · left
      simp [Channel.IRCName, h, ChannelPrefixPublicChannel, gs]
    · right
      have hpub : c.IsPublicChannel = false := by
        revert h
        unfold Channel.IsPublicChannel Channel.IsPrivateChannel
        cases hch : c.isChannel <;> cases hpr : c.isPrivate <;> simp
      simp [Channel.IRCName, hpub, h, ChannelPrefixPrivateChannel, gs]
  have hsl : c.SlackName = c.name := rfl
  rcases hname with h | h
  · have hpfx : HasChannelPrefix ('#' :: c.name) = true := rfl
    rw [ChannelsByName, h, hpfx]
    simpa [hsl] using hm
  · have hpfx : HasChannelPrefix ('@' :: c.name) = true := rfl
    rw [ChannelsByName, h, hpfx]
    simpa [hsl] using hm

/-- C9 witness: the round-trip theorem applied to the public channel
`general` stored under its Slack name. -/
theorem ByName_IRCName_roundTrip_witness :
    ChannelsByName [(generalCh.SlackName, generalCh)] generalCh.IRCName = some generalCh :=
  ByName_IRCName_roundTrip [(generalCh.SlackName, generalCh)] generalCh
    (Or.inl (by decide)) (by decide)

/-- C6 amended: for a message whose resolved sender name equals the own
nick, `printMessage` suppresses it if and only if: with a legacy token, the
user-cache lookup succeeded and the message's bot id differs from the bot id
on the user's profile; with a modern token, the message's client_msg_id is
empty. (The counterexample refutes the original direction of the legacy
discriminator: a differing bot id IS suppressed.) -/
theorem printMessage_suppression_characterization (nick : GoStr) (legacy : Bool)
    (user? : Option SlackUser) (m : SlackMsg)
    (h : printMessageName user? m = nick) :
    (printMessageSkipsOwn nick legacy user? m = true ↔
      ((legacy = true ∧ ∃ u, user? = some u ∧ m.botID ≠ u.profileBotID) ∨
       (legacy = false ∧ m.clientMsgID = []))) := by
  subst h
  cases legacy <;> cases user? <;>
    simp [printMessageSkipsOwn, bne_iff_ne]

/-- C6 witness: with a modern token and empty client_msg_id, a message from
the own nick is suppressed. -/
theorem printMessage_suppression_witness :
    printMessageSkipsOwn (gs "alice") false (some ⟨gs "alice", gs "B1"⟩)
      ⟨gs "U1", [], [], []⟩ = true :=
  (printMessage_suppression_characterization (gs "alice") false
      (some ⟨gs "alice", gs "B1"⟩) ⟨gs "U1", [], [], []⟩ (by decide)).mpr
    (Or.inr ⟨rfl, rfl⟩)

/-- sjoin_cons unfolds one step of the space join for a non-empty tail. -/
theorem sjoin_cons (w : GoStr) (ws : List GoStr) (h : ws ≠ []) :
    sjoin (w :: ws) = w ++ ' ' :: sjoin ws := by
  cases ws with
  | nil => exact absurd rfl h
  | cons x t => rfl

/-- sjoin_append splits the space join of a concatenation of two non-empty
word lists. -/
theorem sjoin_append (ws vs : List GoStr) (h1 : ws ≠ []) (h2 : vs ≠ []) :
    sjoin (ws ++ vs) = sjoin ws ++ ' ' :: sjoin vs := by
  induction ws with
  | nil => exact absurd rfl h1
  | cons w t ih =>
      cases t with
      | nil =>
          rw [List.singleton_append, sjoin_cons w vs h2]
          rfl
      | cons x t2 =>
          rw [List.cons_append, sjoin_cons w ((x :: t2) ++ vs) (by simp),
            sjoin_cons w (x :: t2) (by simp), ih (by simp)]
          simp

/-- sumLen_append distributes the total length over concatenation. -/
theorem sumLen_append (ws vs : List GoStr) :
    sumLen (ws ++ vs) = sumLen ws + sumLen vs := by
  simp [sumLen]

/-- length_sjoin relates the length of a space join to the word lengths:
one separator byte per word beyond the first. -/
theorem length_sjoin (ws : List GoStr) (h : ws ≠ []) :
    (sjoin ws).length + 1 = sumLen ws + ws.length := by
  induction ws with
  | nil => exact absurd rfl h
  | cons w t ih =>
      cases t with
      | nil => simp [sjoin, sumLen]
      | cons x t2 =>
          rw [sjoin_cons w (x :: t2) (by simp)]
          have := ih (by simp)
          simp only [List.length_append, List.length_cons, sumLen, List.map_cons,
            List.sum_cons] at *
          omega

/-- mem_length_le_sjoin bounds each word's length by the join's length. -/
theorem mem_length_le_sjoin (ws : List GoStr) (w : GoStr) (h : w ∈ ws) :
    w.length ≤ (sjoin ws).length := by
  induction ws with
  | nil => simp at h
  | cons a t ih =>
      cases t with
      | nil =>
          simp only [List.mem_singleton] at h
          subst h
          simp [sjoin]
      | cons x t2 =>
          rw [sjoin_cons a (x :: t2) (by simp)]
          rcases List.mem_cons.mp h with rfl | hmem
          · simp
          · have := ih hmem
            simp only [List.length_append, List.length_cons]
            omega

/-- wwAux_ne_nil: the accumulation loop always flushes at least one line
when the word buffer is non-empty. -/
theorem wwAux_ne_nil (maxLen : Int) (rest : List GoStr) :
    ∀ (words : List GoStr) (curLen : Nat), words ≠ [] →
      wwAux maxLen rest words curLen ≠ [] := by
  induction rest with
  | nil =>
      intro words curLen h
      simp [wwAux, h]
  | cons w rs ih =>
      intro words curLen h
      unfold wwAux
      split
      · simp
      · exact ih (words ++ [w]) (curLen + w.length) (by simp)

/-- goTruncLine_of_nonneg: the truncation of a single line never panics for
a nonnegative max length and agrees with the pure truncation. -/
theorem goTruncLine_of_nonneg (maxLen : Int) (h : 0 ≤ maxLen) (l : GoStr) :
    goTruncLine maxLen l = some (goTruncStr maxLen l) := by
  unfold goTruncLine goTruncStr
  split
  · rw [if_neg (by omega)]
  · rfl

/-- truncLines_of_nonneg: the truncation pass never panics for a nonnegative
max length and agrees with the pure per-line truncation. -/
theorem truncLines_of_nonneg (maxLen : Int) (h : 0 ≤ maxLen) (ls : List GoStr) :
    truncLines maxLen ls = some (ls.map (goTruncStr maxLen)) := by
  induction ls with
  | nil => rfl
  | cons l t ih =>
      unfold truncLines
      rw [goTruncLine_of_nonneg maxLen h l, ih]
      simp

/-- goTruncStr_length_le: a truncated line never exceeds a nonnegative max
length. -/
theorem goTruncStr_length_le (maxLen : Int) (h : 0 ≤ maxLen) (l : GoStr) :
    ((goTruncStr maxLen l).length : Int) ≤ maxLen := by
  unfold goTruncStr
  split
  · rename_i hgt
    simp only [List.length_take]
    omega
  · omega

/-- map_id_of_mem_fix: a map whose function fixes every member is the
identity. -/
theorem map_id_of_mem_fix (f : GoStr → GoStr) (ws : List GoStr)
    (h : ∀ w ∈ ws, f w = w) : ws.map f = ws := by
  induction ws with
  | nil => rfl
  | cons a t ih =>
      rw [List.map_cons, h a (by simp), ih (fun w hw => h w (by simp [hw]))]

/-- trunc_sjoin_head: truncating a flushed line equals joining the truncated
words of its buffer, under the loop invariant that the buffer either fits in
the max length or is a single word. -/
theorem trunc_sjoin_head (maxLen : Int) (words : List GoStr) (hne : words ≠ [])
    (hinv : ((sjoin words).length : Int) ≤ maxLen ∨ ∃ u, words = [u]) :
    goTruncStr maxLen (sjoin words) = sjoin (words.map (goTruncStr maxLen)) := by
  rcases hinv with hle | ⟨u, rfl⟩
  · have hid : words.map (goTruncStr maxLen) = words := by
      apply map_id_of_mem_fix
      intro w hw
      have h1 : (w.length : Int) ≤ maxLen := by
        have := mem_length_le_sjoin words w hw
        omega
      unfold goTruncStr
      rw [if_neg (by omega)]
    rw [hid]
    unfold goTruncStr
    rw [if_neg (by omega)]
  · rfl

/-- wwAux_trunc_join: the truncated lines of the accumulation loop, joined
by spaces, equal the remaining words (buffer first) each truncated and
joined by spaces — the loop invariant behind the word-wrap concatenation
property. -/
theorem wwAux_trunc_join (maxLen : Int) :
    ∀ (rest words : List GoStr), words ≠ [] →
      (((sjoin words).length : Int) ≤ maxLen ∨ ∃ u, words = [u]) →
      sjoin ((wwAux maxLen rest words (sumLen words)).map (goTruncStr maxLen)) =
        sjoin ((words ++ rest).map (goTruncStr maxLen)) := by
  intro rest
  induction rest with
  | nil =>
      intro words hne hinv
      simp only [wwAux, if_neg hne, List.append_nil, List.map_cons, List.map_nil]
      exact trunc_sjoin_head maxLen words hne hinv
  | cons w rs ih =>
      intro words hne hinv
      simp only [wwAux]
      split_ifs with hc
      · have hsum : w.length = sumLen [w] := by simp [sumLen]
        rw [hsum]
        have htail := ih [w] (by simp) (Or.inr ⟨w, rfl⟩)
        have htne : (wwAux maxLen rs [w] (sumLen [w])).map (goTruncStr maxLen) ≠ [] := by
          simp only [ne_eq, List.map_eq_nil_iff]
          exact wwAux_ne_nil maxLen rs [w] (sumLen [w]) (by simp)
        simp only [List.singleton_append] at htail
        rw [List.map_cons, sjoin_cons _ _ htne, htail,
          trunc_sjoin_head maxLen words hne hinv, List.map_append,
          sjoin_append (words.map (goTruncStr maxLen))
            ((w :: rs).map (goTruncStr maxLen)) (by simpa using hne) (by simp)]
      · have hsum2 : sumLen words + w.length = sumLen (words ++ [w]) := by
          simp [sumLen]
        rw [hsum2]
        have hinv2 : ((sjoin (words ++ [w])).length : Int) ≤ maxLen ∨
            ∃ u, words ++ [w] = [u] := by
          left
          have hlen := length_sjoin (words ++ [w]) (by simp)
          have hsl : sumLen (words ++ [w]) = sumLen words + w.length := by
            simp [sumLen]
          push_neg at hc
          simp only [List.length_append, List.length_cons, List.length_nil] at hlen
          omega
        rw [ih (words ++ [w]) (by simp) hinv2]
        simp [List.append_assoc]

/-- C4 amended: for any words `W` and max length `L ≥ 1`, `WordWrap W L`
returns lines and every returned line has length at most `L` — with no
further proviso; and when additionally the first word of `W` is no longer
than `L`, the lines joined by single spaces equal the input words, each
truncated to its first `L` bytes, joined by single spaces. (The
counterexample shows the leading empty line that breaks the concatenation
equality when the first word is longer than `L`.) -/
theorem WordWrap_amended (W : List GoStr) (L : Int) (hL : 1 ≤ L) :
    ∃ lines, WordWrap W L = some lines ∧
      (∀ l ∈ lines, (l.length : Int) ≤ L) ∧
      ((∀ w, W.head? = some w → (w.length : Int) ≤ L) →
        sjoin lines = sjoin (W.map (goTruncStr L))) := by
  have hML : (0 : Int) ≤ L := by omega
  refine ⟨(wwAux L W [] 0).map (goTruncStr L), ?_, ?_, ?_⟩
  · unfold WordWrap
    exact truncLines_of_nonneg L hML _
  · intro l hl
    obtain ⟨raw, _, rfl⟩ := List.mem_map.mp hl
    exact goTruncStr_length_le L hML raw
  · intro hfirst
    cases W with
    | nil => simp [wwAux]
    | cons w rs =>
        have hw : (w.length : Int) ≤ L := hfirst w rfl
        have hstep : wwAux L (w :: rs) [] 0 = wwAux L rs [w] (sumLen [w]) := by
          simp only [wwAux]
          rw [if_neg (by simp; omega)]
          simp [sumLen]
        rw [hstep, wwAux_trunc_join L rs [w] (by simp) (Or.inr ⟨w, rfl⟩)]
        simp

/-- C4 witness: the amended theorem applied to the fox test words at
length 10, with the concatenation conjunct discharged at its hypothesis. -/
theorem WordWrap_amended_witness :
    ∃ lines,
      WordWrap [gs "The", gs "quick", gs "brown", gs "fox", gs "jumps", gs "over",
        gs "the", gs "lazy", gs "dog"] 10 = some lines ∧
      (∀ l ∈ lines, (l.length : Int) ≤ 10) ∧
      ((∀ w, [gs "The", gs "quick", gs "brown", gs "fox", gs "jumps", gs "over",
          gs "the", gs "lazy", gs "dog"].head? = some w → (w.length : Int) ≤ 10) →
        sjoin lines = sjoin ([gs "The", gs "quick", gs "brown", gs "fox", gs "jumps",
          gs "over", gs "the", gs "lazy", gs "dog"].map (goTruncStr 10))) :=
  WordWrap_amended _ 10 (by norm_num)

/-- wwAux_start_ne_nil: the accumulation loop emits at least one line when
there is at least one word. -/
theorem wwAux_start_ne_nil (maxLen : Int) (w : GoStr) (ws : List GoStr) :
    wwAux maxLen (w :: ws) [] 0 ≠ [] := by
  unfold wwAux
  split
  · simp
  · simpa using wwAux_ne_nil maxLen ws [w] w.length (by simp)

/-- C10 amended: `SplitReply` returns a list of chunks whenever the
one-chunk branch applies or the computed maximum line length
`chunksize - len(preamble) - 2` is nonnegative; in the splitting branch
every chunk has length at most `chunksize`, and the chunk list is non-empty
whenever the message contains at least one word. (The counterexample shows
the panic when the preamble alone exceeds `chunksize - 2`, and the empty
chunk list for a whitespace-only message.) -/
theorem SplitReply_amended (preamble msg : GoStr) (cs : Int)
    (h : (preamble.length : Int) + 2 ≤ cs ∨ cs < 512 ∨
      (preamble.length : Int) + msg.length + 2 ≤ cs) :
    ∃ chunks, SplitReply preamble msg cs = some chunks ∧
      (512 ≤ cs → cs < (preamble.length : Int) + msg.length + 2 →
        ((∀ c ∈ chunks, (c.length : Int) ≤ cs) ∧
          (goFields msg ≠ [] → chunks ≠ []))) := by
  by_cases hb : cs < 512 ∨ (preamble.length : Int) + msg.length + 2 ≤ cs
  · refine ⟨[preamble ++ msg ++ crlf], ?_, ?_⟩
    · unfold SplitReply
      rw [if_pos hb]
    · intro h1 h2
      exfalso
      rcases hb with hb | hb <;> omega
  · have hML : (0 : Int) ≤ cs - preamble.length - 2 := by
      push_neg at hb
      rcases h with h | h | h
      · omega
      · exact absurd h (by omega)
      · exact absurd h (by omega)
    have hww : WordWrap (goFields msg) (cs - preamble.length - 2) =
        some ((wwAux (cs - preamble.length - 2) (goFields msg) [] 0).map
          (goTruncStr (cs - preamble.length - 2))) := by
      unfold WordWrap
      exact truncLines_of_nonneg _ hML _
    refine ⟨((wwAux (cs - preamble.length - 2) (goFields msg) [] 0).map
      (goTruncStr (cs - preamble.length - 2))).map
        (fun line => preamble ++ line ++ crlf), ?_, ?_⟩
    · unfold SplitReply
      rw [if_neg hb]
      simp only [hww]
    · intro _ _
      constructor
      · intro c hc
        obtain ⟨line, hline, rfl⟩ := List.mem_map.mp hc
        obtain ⟨raw, _, rfl⟩ := List.mem_map.mp hline
        have hlen := goTruncStr_length_le _ hML raw
        have he : crlf.length = 2 := rfl
        simp only [List.length_append]
        push_cast
        push_cast at hlen
        omega
      · intro hf hcontra
        cases hfields : goFields msg with
        | nil => exact hf hfields
        | cons w ws =>
            rw [hfields] at hcontra
            simp only [List.map_eq_nil_iff] at hcontra
            exact wwAux_start_ne_nil (cs - preamble.length - 2) w ws hcontra

/-- C10 witness: the amended theorem applied to a short numeric reply that
fits in one chunk. -/
theorem SplitReply_amended_witness :
    ∃ chunks, SplitReply (gs ":irc 353 n :") (gs "hello world") 512 = some chunks ∧
      (512 ≤ (512 : Int) → (512 : Int) < ((gs ":irc 353 n :").length : Int) +
          (gs "hello world").length + 2 →
        ((∀ c ∈ chunks, (c.length : Int) ≤ 512) ∧
          (goFields (gs "hello world") ≠ [] → chunks ≠ []))) :=
  SplitReply_amended (gs ":irc 353 n :") (gs "hello world") 512
    (Or.inr (Or.inr (by decide)))

/-- list_map_congr: maps of pointwise-equal functions agree. -/
theorem list_map_congr {α β : Type} (f g : α → β) (l : List α)
    (h : ∀ a ∈ l, f a = g a) : l.map f = l.map g := by
  induction l with
  | nil => rfl
  | cons a t ih =>
      rw [List.map_cons, List.map_cons, h a (by simp),
        ih (fun x hx => h x (by simp [hx]))]

/-- catNL_nil: no commands accumulate nothing. -/
theorem catNL_nil (t : GoStr) : catNL [] t = [] := rfl

/-- catNL_cons unfolds one command of the per-target accumulation. -/
theorem catNL_cons (m : SlackPostMessage) (ms : List SlackPostMessage) (t : GoStr) :
    catNL (m :: ms) t =
      if m.target == t then (m.text ++ [Char.ofNat 10]) ++ catNL ms t
      else catNL ms t := by
  unfold catNL
  rw [List.filter_cons]
  split <;> simp

/-- hasKey_false_mem: a missing key differs from every entry's key. -/
theorem hasKey_false_mem (buf : List (GoStr × GoStr)) (k : GoStr)
    (h : hasKey buf k = false) :
    ∀ e ∈ buf, (e.1 == k) = false := by
  intro e he
  unfold hasKey at h
  cases hopt : buf.find? (fun x => x.1 == k) with
  | none => simpa using List.find?_eq_none.mp hopt e he
  | some val =>
      rw [hopt] at h
      simp at h

/-- hasKey_map_upd: updating values in place preserves the key set. -/
theorem hasKey_map_upd (buf : List (GoStr × GoStr)) (k tgt : GoStr) (v : GoStr) :
    hasKey (buf.map (fun e => if e.1 == tgt then (e.1, e.2 ++ v) else e)) k =
      hasKey buf k := by
  induction buf with
  | nil => rfl
  | cons e t ih =>
      unfold hasKey at ih ⊢
      rw [List.map_cons, List.find?_cons, List.find?_cons]
      have hfst : (if e.1 == tgt then (e.1, e.2 ++ v) else e).1 = e.1 := by
        split <;> rfl
      rw [hfst]
      by_cases hek : (e.1 == k) = true
      · rw [hek]
        rfl
      · rw [Bool.not_eq_true] at hek
        rw [hek]
        exact ih

/-- hasKey_append_single: appending one entry adds exactly its key. -/
theorem hasKey_append_single (buf : List (GoStr × GoStr)) (k0 v k : GoStr) :
    hasKey (buf ++ [(k0, v)]) k = (hasKey buf k || (k0 == k)) := by
  induction buf with
  | nil =>
      unfold hasKey
      rw [List.nil_append]
      rw [List.find?_cons]
      by_cases h : (k0 == k) = true
      · rw [h]
        rfl
      · rw [Bool.not_eq_true] at h
        rw [h]
        rfl
  | cons e t ih =>
      unfold hasKey at ih ⊢
      rw [List.cons_append, List.find?_cons, List.find?_cons]
      by_cases hek : (e.1 == k) = true
      · rw [hek]
        rfl
      · rw [Bool.not_eq_true] at hek
        rw [hek]
        exact ih

/-- windowTargets_mem: every window target is the target of some command. -/
theorem windowTargets_mem (l : List SlackPostMessage) (t : GoStr)
    (h : t ∈ windowTargets l) : ∃ m ∈ l, m.target = t := by
  induction l with
  | nil => simp [windowTargets] at h
  | cons m ms ih =>
      unfold windowTargets at h
      rcases List.mem_cons.mp h with rfl | hmem
      · exact ⟨m, by simp⟩
      · obtain ⟨m', hm', rfl⟩ := ih (List.mem_filter.mp hmem).1
        exact ⟨m', by simp [hm']⟩

/-- windowTargets_filter: restricting the commands by a predicate on their
target restricts the window targets by the same predicate. -/
theorem windowTargets_filter (q : GoStr → Bool) :
    ∀ (l : List SlackPostMessage),
      windowTargets (l.filter (fun m => q m.target)) =
        (windowTargets l).filter q := by
  intro l
  induction l with
  | nil => rfl
  | cons m ms ih =>
      have hw : windowTargets (m :: ms) =
          m.target :: (windowTargets ms).filter (fun t => !(t == m.target)) := rfl
      rw [List.filter_cons, hw]
      by_cases hq : q m.target = true
      · rw [if_pos hq]
        have hw2 : windowTargets (m :: ms.filter (fun m' => q m'.target)) =
            m.target :: (windowTargets (ms.filter (fun m' => q m'.target))).filter
              (fun t => !(t == m.target)) := rfl
        rw [hw2, ih, List.filter_cons, if_pos hq, List.filter_filter,
          List.filter_filter]
        congr 1
        apply List.filter_congr
        intro t _
        by_cases ht : (t == m.target) = true
        · have : t = m.target := by simpa using ht
          subst this
          simp [hq]
        · rw [Bool.not_eq_true] at ht
          simp [ht]
      · rw [if_neg hq, ih, List.filter_cons, if_neg hq, List.filter_filter]
        apply List.filter_congr
        intro t _
        by_cases ht : (t == m.target) = true
        · have : t = m.target := by simpa using ht
          subst this
          simp [hq]
        · rw [Bool.not_eq_true] at ht
          simp [ht]

/-- gostr_beq_comm: boolean equality of byte strings is symmetric. -/
theorem gostr_beq_comm (a b : GoStr) : (a == b) = (b == a) := by
  by_cases h : a = b
  · subst h; rfl
  · have h2 : ¬b = a := fun hh => h hh.symm
    simp [h, h2]

/-- accumBuf_closed: the buffer after processing a window of commands holds,
for each pre-existing entry, its old text extended by that target's
accumulated texts, followed by one entry per new target in first-arrival
order carrying its accumulated texts. -/
theorem accumBuf_closed :
    ∀ (cs : List SlackPostMessage) (buf : List (GoStr × GoStr)),
      accumBuf cs buf =
        buf.map (fun e => (e.1, e.2 ++ catNL cs e.1)) ++
        (windowTargets (cs.filter (fun m => !(hasKey buf m.target)))).map
          (fun t => (t, catNL cs t)) := by
  intro cs
  induction cs with
  | nil =>
      intro buf
      simp [accumBuf, catNL_nil, windowTargets]
  | cons m ms ih =>
      intro buf
      have hstep : accumBuf (m :: ms) buf =
          accumBuf ms (bufAppend buf m.target (m.text ++ [Char.ofNat 10])) := rfl
      rw [hstep]
      by_cases hk : hasKey buf m.target = true
      · have hb : bufAppend buf m.target (m.text ++ [Char.ofNat 10]) =
            buf.map (fun e => if e.1 == m.target
              then (e.1, e.2 ++ (m.text ++ [Char.ofNat 10])) else e) := by
          unfold bufAppend
          unfold hasKey at hk
          rw [if_pos hk]
        rw [hb, ih]
        have hkeys : (fun m' : SlackPostMessage =>
            !(hasKey (buf.map (fun e => if e.1 == m.target
              then (e.1, e.2 ++ (m.text ++ [Char.ofNat 10])) else e)) m'.target)) =
            (fun m' : SlackPostMessage => !(hasKey buf m'.target)) :=
          funext fun m' => by rw [hasKey_map_upd]
        rw [hkeys, List.map_map]
        have h1 : buf.map ((fun e : GoStr × GoStr => (e.1, e.2 ++ catNL ms e.1)) ∘
            (fun e => if e.1 == m.target
              then (e.1, e.2 ++ (m.text ++ [Char.ofNat 10])) else e)) =
            buf.map (fun e => (e.1, e.2 ++ catNL (m :: ms) e.1)) := by
          apply list_map_congr
          intro e _
          by_cases he1 : (e.1 == m.target) = true
          · have heq : e.1 = m.target := by simpa using he1
            simp only [Function.comp_apply, if_pos he1]
            rw [catNL_cons, if_pos (by simp [heq]), List.append_assoc]
          · rw [Bool.not_eq_true] at he1
            have hne : ¬m.target = e.1 := by
              intro hh
              simp [hh] at he1
            have hcond : ¬((e.1 == m.target) = true) := by simp [he1]
            simp only [Function.comp_apply]
            rw [if_neg hcond, catNL_cons,
              if_neg (by simp only [beq_iff_eq]; exact hne)]
        rw [h1]
        have h2 : (m :: ms).filter (fun m' => !(hasKey buf m'.target)) =
            ms.filter (fun m' => !(hasKey buf m'.target)) := by
          rw [List.filter_cons, if_neg (by simp [hk])]
        rw [h2]
        congr 1
        apply list_map_congr
        intro t ht
        obtain ⟨m', hm', rfl⟩ := windowTargets_mem _ _ ht
        have hp := (List.mem_filter.mp hm').2
        have hknot : hasKey buf m'.target = false := by
          simpa using hp
        have hne : ¬m.target = m'.target := by
          intro hh
          rw [hh] at hk
          rw [hk] at hknot
          cases hknot
        rw [catNL_cons, if_neg (by simp only [beq_iff_eq]; exact hne)]
      · rw [Bool.not_eq_true] at hk
        have hb : bufAppend buf m.target (m.text ++ [Char.ofNat 10]) =
            buf ++ [(m.target, m.text ++ [Char.ofNat 10])] := by
          unfold bufAppend
          unfold hasKey at hk
          rw [if_neg (by simp [hk])]
        rw [hb, ih, List.map_append]
        have h1 : buf.map (fun e : GoStr × GoStr => (e.1, e.2 ++ catNL ms e.1)) =
            buf.map (fun e => (e.1, e.2 ++ catNL (m :: ms) e.1)) := by
          apply list_map_congr
          intro e he
          have he1 := hasKey_false_mem buf m.target hk e he
          have hne : ¬m.target = e.1 := by
            intro hh
            simp [hh] at he1
          rw [catNL_cons, if_neg (by simp only [beq_iff_eq]; exact hne)]
        rw [h1]
        have h2 : (m :: ms).filter (fun m' => !(hasKey buf m'.target)) =
            m :: ms.filter (fun m' => !(hasKey buf m'.target)) := by
          rw [List.filter_cons, if_pos (by simp [hk])]
        rw [h2]
        have h3 : windowTargets (m :: ms.filter (fun m' => !(hasKey buf m'.target))) =
            m.target :: (windowTargets (ms.filter
              (fun m' => !(hasKey buf m'.target)))).filter
              (fun t => !(t == m.target)) := rfl
        rw [h3]
        have h4 : ms.filter (fun m' =>
            !(hasKey (buf ++ [(m.target, m.text ++ [Char.ofNat 10])]) m'.target)) =
            (ms.filter (fun m' => !(hasKey buf m'.target))).filter
              (fun m' => !(m'.target == m.target)) := by
          rw [List.filter_filter]
          apply List.filter_congr
          intro m' _
          rw [hasKey_append_single]
          rw [Bool.not_or]
          rw [gostr_beq_comm m'.target m.target]
          rw [Bool.and_comm]
        have h5 : windowTargets ((ms.filter (fun m' => !(hasKey buf m'.target))).filter
            (fun m' => !(m'.target == m.target))) =
            (windowTargets (ms.filter (fun m' => !(hasKey buf m'.target)))).filter
              (fun t => !(t == m.target)) :=
          windowTargets_filter (fun t => !(t == m.target)) _
        rw [h4, h5]
        rw [List.map_cons]
        have h6 : catNL (m :: ms) m.target =
            (m.text ++ [Char.ofNat 10]) ++ catNL ms m.target := by
          rw [catNL_cons, if_pos (by simp)]
        have h7 : ((windowTargets (ms.filter (fun m' => !(hasKey buf m'.target)))).filter
            (fun t => !(t == m.target))).map
              (fun t => (t, catNL ms t)) =
            ((windowTargets (ms.filter (fun m' => !(hasKey buf m'.target)))).filter
              (fun t => !(t == m.target))).map
              (fun t => (t, catNL (m :: ms) t)) := by
          apply list_map_congr
          intro t ht
          have hflag := (List.mem_filter.mp ht).2
          have hne : ¬m.target = t := by
            intro hh
            subst hh
            simp at hflag
          rw [catNL_cons, if_neg (by simp only [beq_iff_eq]; exact hne)]
        dsimp only [List.map_cons, List.map_nil]
        rw [h6, ← h7]
        simp [List.append_assoc]

/-- trim_append_nl: a trailing newline does not change the trimmed text. -/
theorem trim_append_nl (s : GoStr) :
    goTrimSpace (s ++ [Char.ofNat 10]) = goTrimSpace s := by
  unfold goTrimSpace
  rw [List.dropWhile_append]
  by_cases h : (s.dropWhile goIsSpace).isEmpty
  · rw [if_pos h]
    have h1 : ([Char.ofNat 10] : GoStr).dropWhile goIsSpace = [] := by decide
    have h2 : s.dropWhile goIsSpace = [] := by
      rwa [List.isEmpty_iff] at h
    rw [h1, h2]
  · rw [if_neg h]
    rw [List.reverse_append]
    have h3 : ([Char.ofNat 10] : GoStr).reverse = [Char.ofNat 10] := rfl
    rw [h3, List.singleton_append, List.dropWhile_cons, if_pos (by decide)]

/-- flatten_nlJoin: texts each followed by a newline, concatenated, equal the
newline join plus one trailing newline. -/
theorem flatten_nlJoin (ts : List GoStr) (h : ts ≠ []) :
    (ts.map (fun x => x ++ [Char.ofNat 10])).flatten = nlJoin ts ++ [Char.ofNat 10] := by
  induction ts with
  | nil => exact absurd rfl h
  | cons x xs ih =>
      cases xs with
      | nil => simp [nlJoin]
      | cons y ys =>
          have hnl : nlJoin (x :: y :: ys) = x ++ Char.ofNat 10 :: nlJoin (y :: ys) := rfl
          rw [List.map_cons, List.flatten_cons, ih (by simp), hnl]
          simp

/-- trim_catNL: the trimmed buffer content for a target equals the trimmed
newline join of that target's texts. -/
theorem trim_catNL (cs : List SlackPostMessage) (t : GoStr) :
    goTrimSpace (catNL cs t) =
      goTrimSpace (nlJoin ((cs.filter (fun m => m.target == t)).map
        (fun m => m.text))) := by
  unfold catNL
  cases hf : cs.filter (fun m => m.target == t) with
  | nil => rfl
  | cons m ms =>
      have h1 : (m :: ms).map (fun m' => m'.text ++ [Char.ofNat 10]) =
          ((m :: ms).map (fun m' => m'.text)).map (fun x => x ++ [Char.ofNat 10]) := by
        rw [List.map_map]
        rfl
      rw [h1, flatten_nlJoin _ (by simp), trim_append_nl]

/-- runBatcherAux_cmds: processing a window of commands accumulates the
buffer, retains the last command in `message`, and issues no posts. -/
theorem runBatcherAux_cmds :
    ∀ (cs : List SlackPostMessage) (buf : List (GoStr × GoStr))
      (msg : SlackPostMessage) (acc : List SlackPost),
      runBatcherAux ((buf, msg), acc) (cs.map .cmd) =
        ((accumBuf cs buf, cs.foldl (fun _ m => m) msg), acc) := by
  intro cs
  induction cs with
  | nil => intro buf msg acc; rfl
  | cons m ms ih =>
      intro buf msg acc
      have hstep : runBatcherAux ((buf, msg), acc) ((m :: ms).map .cmd) =
          runBatcherAux ((bufAppend buf m.target (m.text ++ [Char.ofNat 10]), m),
            acc ++ []) (ms.map .cmd) := rfl
      rw [hstep, List.append_nil, ih]
      rfl

/-- foldl_keep_last: repeatedly overwriting a variable keeps the last value. -/
theorem foldl_keep_last :
    ∀ (cs : List SlackPostMessage) (d : SlackPostMessage),
      cs.foldl (fun _ m => m) d = cs.getLast?.getD d := by
  intro cs
  induction cs with
  | nil => intro d; rfl
  | cons m ms ih =>
      intro d
      cases ms with
      | nil => rfl
      | cons m2 ms2 =>
          have h1 : (m :: m2 :: ms2).foldl (fun _ x => x) d =
              (m2 :: ms2).foldl (fun _ x => x) m := rfl
          rw [h1, ih m, List.getLast?_cons_cons]
          cases hgl : (m2 :: ms2).getLast? with
          | none => simp at hgl
          | some x => rfl

/-- lastTs_of_foldl: the thread-timestamp decision made from the retained
`message` variable equals the specification-side `lastTs`. -/
theorem lastTs_of_foldl (cs : List SlackPostMessage) :
    (if (cs.foldl (fun _ m => m) (⟨[], [], []⟩ : SlackPostMessage)).targetTs ≠ []
      then some (cs.foldl (fun _ m => m) (⟨[], [], []⟩ : SlackPostMessage)).targetTs
      else none) = lastTs cs := by
  rw [foldl_keep_last]
  unfold lastTs
  cases h : cs.getLast? with
  | none => rfl
  | some m => rfl

/-- C5 amended: for every window of commands delivered before a timer fire,
the batcher issues exactly one post per distinct target in first-arrival
order; each post's text is the trimmed newline join of that target's texts
in arrival order, and each post carries the thread timestamp of the last
command received overall (when non-empty) — not the last command for that
target, as the counterexample shows. -/
theorem batcher_window_behavior (cs : List SlackPostMessage) :
    runBatcher (cs.map .cmd ++ [.timerFire]) =
      (windowTargets cs).map (fun t =>
        { target := t
          text := goTrimSpace (nlJoin ((cs.filter (fun m => m.target == t)).map
            (fun m => m.text)))
          threadTs := lastTs cs }) := by
  unfold runBatcher
  have hsplit : runBatcherAux ((([], ⟨[], [], []⟩), [])) (cs.map .cmd ++ [.timerFire]) =
      runBatcherAux (runBatcherAux ((([], ⟨[], [], []⟩), [])) (cs.map .cmd))
        [.timerFire] := by
    unfold runBatcherAux
    rw [List.foldl_append]
  rw [hsplit, runBatcherAux_cmds]
  have htimer : runBatcherAux ((accumBuf cs [],
      cs.foldl (fun _ m => m) (⟨[], [], []⟩ : SlackPostMessage)), []) [.timerFire] =
      ((([], cs.foldl (fun _ m => m) (⟨[], [], []⟩ : SlackPostMessage))),
        [] ++ (accumBuf cs []).map (fun e =>
          { target := e.1
            text := goTrimSpace e.2
            threadTs := if (cs.foldl (fun _ m => m)
                (⟨[], [], []⟩ : SlackPostMessage)).targetTs ≠ []
              then some (cs.foldl (fun _ m => m)
                (⟨[], [], []⟩ : SlackPostMessage)).targetTs
              else none })) := rfl
  rw [htimer]
  simp only [List.nil_append]
  rw [accumBuf_closed cs []]
  simp only [List.map_nil, List.nil_append]
  have hfil : cs.filter (fun m => !(hasKey [] m.target)) = cs :=
    List.filter_eq_self.mpr (fun a _ => rfl)
  rw [hfil, List.map_map]
  apply list_map_congr
  intro t _
  simp only [Function.comp_apply]
  rw [SlackPost.mk.injEq]
  refine ⟨rfl, ?_, ?_⟩
  · exact trim_catNL cs t
  · exact lastTs_of_foldl cs
